import Mathlib

/-!
Verification of the PageStack URL-list → EPUB pipeline
(`src/pagestack/main.py` and `src/pagestack/auto.py`).

The Python source is shallowly embedded: the per-element image pipeline of
`process_images` / `_sanitise_attrs` and the srcset / attribute-stripping
passes of `clean_html` act on association-list attribute maps; the library
collaborators (urllib's `urljoin`, the HTTP fetch, `hashlib.md5`,
`mimetypes.guess_extension`, the optional PIL downsampling) enter as
function parameters in an `Env` record, since the spec treats them as
external services.  `build_epub`'s loop is embedded with fetch / extract /
clean as fallible oracles, and the incremental-state logic of
`build_and_send` with the builder as an oracle.  Python string helpers
(`str.strip`, `str.split`, `str.replace`, `int(...)`, `str.startswith`)
are re-implemented over character lists to keep every definition
kernel-executable.
-/

namespace PageStack

/-- Attribute map of an HTML element (BeautifulSoup `tag.attrs`),
as an insertion-ordered association list. -/
abbrev Attrs := List (String × String)

/-- First-match association lookup: `tag.get(key)`. -/
def lookupA : Attrs → String → Option String
  | [], _ => none
  | (k, v) :: rest, key => if k == key then some v else lookupA rest key

/-- `tag.get(key, dflt)`. -/
def getAttrD (a : Attrs) (key dflt : String) : String :=
  (lookupA a key).getD dflt

/-- `tag[key] = v`: overwrite the attribute in place if present, else append it. -/
def setA : Attrs → String → String → Attrs
  | [], key, v => [(key, v)]
  | kv :: rest, key, v =>
    if kv.1 == key then (key, v) :: rest else kv :: setA rest key v

/-- `del tag.attrs[key]` (also models the guarded `if key in tag.attrs: del ...`). -/
def delA (a : Attrs) (key : String) : Attrs :=
  a.filter (fun kv => !(kv.1 == key))

/-- Python `str.strip()` on a character list. -/
def trimChars (l : List Char) : List Char :=
  ((l.dropWhile Char.isWhitespace).reverse.dropWhile Char.isWhitespace).reverse

/-- Python `str.strip()`. -/
def pyStrip (s : String) : String := String.mk (trimChars s.toList)

/-- Python `str.startswith(p)`. -/
def pyStartsWith (s p : String) : Bool := p.toList.isPrefixOf s.toList

/-- Python `str.split(",")`, on a character list. -/
def splitCharList (c : Char) (l : List Char) : List (List Char) :=
  l.foldr
    (fun ch acc =>
      match acc with
      | [] => [[ch]]
      | a :: rest => if ch == c then [] :: a :: rest else (ch :: a) :: rest)
    [[]]

/-- Python `str.split(",")`. -/
def splitOnComma (s : String) : List String :=
  (splitCharList ',' s.toList).map String.mk

/-- First whitespace-separated token: `str.split()[0]` of a non-blank string. -/
def firstToken (s : String) : String :=
  String.mk ((s.toList.dropWhile Char.isWhitespace).takeWhile (fun ch => !ch.isWhitespace))

/-- Python `str.replace(c, r)` for a single-character pattern. -/
def replaceAll (s : String) (c : Char) (r : String) : String :=
  String.mk (s.toList.foldr (fun ch acc => if ch == c then r.toList ++ acc else ch :: acc) [])

/-- Value of a non-empty all-digit character list. -/
def digitsVal (cs : List Char) : Option Nat :=
  if cs.isEmpty then none
  else if cs.all Char.isDigit then
    some (cs.foldl (fun a c => a * 10 + (c.toNat - 48)) 0)
  else none

/-- Python `int(s)` on decimal literals with optional sign and surrounding
whitespace; `none` models the raised `ValueError`. -/
def pyInt (s : String) : Option Int :=
  match trimChars s.toList with
  | [] => none
  | c :: cs =>
    if c == '-' then (digitsVal cs).map (fun n => -(n : Int))
    else if c == '+' then (digitsVal cs).map (fun n => (n : Int))
    else (digitsVal (c :: cs)).map (fun n => (n : Int))

/-- Python `a or b` over optional strings (`None` and `""` are falsy). -/
def pyOrStr (a b : Option String) : Option String :=
  match a with
  | some s => if s == "" then b else some s
  | none => b

/-- Attribute allow-list of `_sanitise_attrs`. -/
def keepAttrs : List String :=
  ["src", "href", "alt", "title", "colspan", "rowspan", "width", "height"]

/-- `_UNWANTED_ATTRS` of `clean_html`. -/
def unwantedAttrs : List String :=
  ["onclick", "onload", "onerror", "class", "id", "style",
   "data-src-retina", "data-original", "loading", "decoding",
   "fetchpriority", "sizes", "crossorigin", "referrerpolicy"]

/-- `_sanitise_attrs`: keep only the allow-listed attributes. -/
def sanitiseAttrs (a : Attrs) : Attrs :=
  a.filter (fun kv => keepAttrs.contains kv.1)

/-- The attribute-stripping pass of `clean_html` on one element:
`img` tags are skipped, other tags lose the attributes in `_UNWANTED_ATTRS`. -/
def stripUnwanted (tagName : String) (a : Attrs) : Attrs :=
  if tagName == "img" then a
  else a.filter (fun kv => !(unwantedAttrs.contains kv.1))

/-- Candidate URLs parsed from a `srcset` value:
`[s.strip().split()[0] for s in srcset.split(",") if s.strip()]`. -/
def candidatesOf (srcset : String) : List String :=
  (splitOnComma srcset).filterMap
    (fun s => if pyStrip s == "" then none else some (firstToken (pyStrip s)))

/-- Python falsiness of `tag.get("src")`. -/
def pyFalsy : Option String → Bool
  | none => true
  | some s => s == ""

/-- The srcset pass of `clean_html` on one `img` element: promote the last
candidate into `src` when `src` is missing or empty, then delete `srcset`. -/
def handleSrcset (a : Attrs) : Attrs :=
  let srcset := getAttrD a "srcset" ""
  let a1 :=
    if (!(srcset == "")) && pyFalsy (lookupA a "src") then
      match (candidatesOf srcset).getLast? with
      | some c => setA a "src" c
      | none => a
    else a
  delA a1 "srcset"

/-- One `<img>` element: its attributes and the tag name of its parent
(`none` for a detached element). -/
structure Img where
  attrs : Attrs
  parentName : Option String
deriving DecidableEq

/-- External library collaborators of the image pipeline:
URL resolution (`urljoin`), the binary HTTP fetch (`fetch_binary`, returning
data and MIME type or `none` on failure), `hashlib.md5(...).hexdigest()[:10]`,
`mimetypes.guess_extension`, and the optional PIL downsampling pipeline. -/
structure Env where
  urljoin : String → String → String
  fetchBin : String → Option (List Nat × String)
  urlHash : String → String
  guessExt : String → Option String
  resize : String → List Nat → List Nat

/-- A binary media item added to the book (`epub.EpubItem`).  `srcUrl` is a
ghost field recording which absolute URL the resource was fetched from; it is
used only to state the deduplication property. -/
structure Resource where
  uid : String
  fileName : String
  mediaType : String
  content : List Nat
  srcUrl : String
deriving DecidableEq

/-- The mutable state threaded through `process_images`: the per-run
`image_cache` (absolute URL → internal path), the book's media items, and a
ghost log of the absolute URLs passed to `fetch_binary`. -/
structure PState where
  cache : Attrs
  resources : List Resource
  downloads : List String
deriving DecidableEq

/-- The empty state at the start of a run. -/
def pState0 : PState := ⟨[], [], []⟩

/-- The source selection of `process_images`:
`(img.get("data-src") or img.get("data-lazy-src") or img.get("data-original")
or img.get("src", "")).strip()`. -/
def computedSrc (img : Img) : String :=
  pyStrip
    ((pyOrStr (lookupA img.attrs "data-src")
      (pyOrStr (lookupA img.attrs "data-lazy-src")
        (pyOrStr (lookupA img.attrs "data-original")
          (some (getAttrD img.attrs "src" ""))))).getD "")

/-- The tracking-pixel test of `process_images`:
`int(w) <= 2 or int(h) <= 2` inside `try/except (ValueError, TypeError)`,
with Python's short-circuit evaluation. -/
def tinyDrop (w h : String) : Bool :=
  match pyInt w with
  | none => false
  | some wi =>
    if wi ≤ 2 then true
    else
      match pyInt h with
      | none => false
      | some hi => decide (hi ≤ 2)

/-- Extension inferred from the MIME type, with the `.jpe`/`.jpeg`
normalisation of `process_images`. -/
def normExt (e : Option String) : String :=
  let ext := e.getD ".jpg"
  if ext == ".jpe" || ext == ".jpeg" then ".jpg" else ext

/-- `f"images/{url_hash}{ext}"` for an absolute URL fetched with MIME `mime`. -/
def internalPath (env : Env) (u mime : String) : String :=
  "images/" ++ env.urlHash u ++ normExt (env.guessExt mime)

/-- The internal path a given absolute URL deterministically maps to under
`env`, when its fetch succeeds. -/
def pathFor (env : Env) (u : String) : Option String :=
  match env.fetchBin u with
  | none => none
  | some dm => some (internalPath env u dm.2)

/-- The figure-wrapping guard:
`img.parent and img.parent.name not in ("figure", "p", "a")`. -/
def wrapCond : Option String → Bool
  | none => false
  | some n => !(n == "figure" || n == "p" || n == "a")

/-- Outcome of `process_images` for one `<img>`: the element is decomposed,
or kept with final attributes, a flag telling whether it was wrapped in a
`<figure>`, and the text of the attached `<figcaption>` if any. -/
inductive ImgResult where
  | dropped
  | kept (attrs : Attrs) (wrapped : Bool) (caption : Option String)
deriving DecidableEq

/-- The cache-miss success path of `process_images`: downsample, register the
media item, record the cache entry, rewrite `src`, sanitise, wrap. -/
def registerImg (env : Env) (st : PState) (img : Img) (absUrl : String)
    (data0 : List Nat) (mime : String) : PState × ImgResult :=
  let data := env.resize mime data0
  let epubPath := internalPath env absUrl mime
  let res : Resource :=
    ⟨"img_" ++ env.urlHash absUrl, epubPath, mime, data, absUrl⟩
  let st1 : PState :=
    ⟨st.cache ++ [(absUrl, epubPath)], st.resources ++ [res], st.downloads⟩
  let attrs1 := sanitiseAttrs (setA img.attrs "src" epubPath)
  if wrapCond img.parentName then
    let alt := pyStrip (getAttrD attrs1 "alt" "")
    (st1, .kept attrs1 true (if alt == "" then none else some alt))
  else
    (st1, .kept attrs1 false none)

/-- The body of the `process_images` loop for one `<img>` element. -/
def processImg (env : Env) (baseUrl : String) (st : PState) (img : Img) :
    PState × ImgResult :=
  let src := computedSrc img
  if src == "" then (st, .dropped)
  else if tinyDrop (getAttrD img.attrs "width" "") (getAttrD img.attrs "height" "") then
    (st, .dropped)
  else if pyStartsWith src "data:" then (st, .kept img.attrs false none)
  else
    let absUrl := env.urljoin baseUrl src
    match lookupA st.cache absUrl with
    | some p => (st, .kept (sanitiseAttrs (setA img.attrs "src" p)) false none)
    | none =>
      let st1 : PState := ⟨st.cache, st.resources, st.downloads ++ [absUrl]⟩
      match env.fetchBin absUrl with
      | none => (st1, .dropped)
      | some dm => registerImg env st1 img absUrl dm.1 dm.2

/-- `process_images`: fold the per-element step over the document's images. -/
def processImages (env : Env) (baseUrl : String) :
    PState → List Img → PState × List ImgResult
  | st, [] => (st, [])
  | st, img :: rest =>
    let r := processImg env baseUrl st img
    let rs := processImages env baseUrl r.1 rest
    (rs.1, r.2 :: rs.2)

/-- The state after running `process_images` on a list of images. -/
def runStateFrom (env : Env) (baseUrl : String) (st : PState) (imgs : List Img) :
    PState :=
  (processImages env baseUrl st imgs).1

/-- The image passes the empty-source, tracking-pixel and data-URI checks and
its source resolves against the base URL to the absolute URL `u`. -/
def resolvesTo (env : Env) (baseUrl : String) (img : Img) (u : String) : Prop :=
  computedSrc img ≠ "" ∧
  tinyDrop (getAttrD img.attrs "width" "") (getAttrD img.attrs "height" "") = false ∧
  pyStartsWith (computedSrc img) "data:" = false ∧
  env.urljoin baseUrl (computedSrc img) = u

instance (env : Env) (baseUrl : String) (img : Img) (u : String) :
    Decidable (resolvesTo env baseUrl img u) := by
  unfold resolvesTo; infer_instance

/-- The tracking-pixel condition as the spec words it: width and height both
declared, both parseable, and both at most 2. -/
def specTrackingPixel (w h : String) : Bool :=
  match pyInt w, pyInt h with
  | some wi, some hi => decide (wi ≤ 2) && decide (hi ≤ 2)
  | _, _ => false

/-- Occurrences of a string in a list. -/
def countStr : List String → String → Nat
  | [], _ => 0
  | x :: xs, u => (if x == u then 1 else 0) + countStr xs u

/-- Number of registered resources fetched from the absolute URL `u`. -/
def resCount (rs : List Resource) (u : String) : Nat :=
  (rs.filter (fun r => r.srcUrl == u)).length

/-! ## The `build_epub` loop -/

/-- `f"{idx:03d}"` for a natural number. -/
def pad3 (n : Nat) : String :=
  let s := toString n
  if s.length < 3 then String.mk (List.replicate (3 - s.length) '0') ++ s else s

/-- `f"chapter_{idx:03d}.xhtml"`. -/
def chapterFileName (idx : Nat) : String := "chapter_" ++ pad3 idx ++ ".xhtml"

/-- Title escaping of `make_chapter_body`. -/
def escTitle (t : String) : String :=
  replaceAll (replaceAll (replaceAll t '<' "&lt;") '>' "&gt;") '"' "&quot;"

/-- URL escaping of `make_chapter_body`. -/
def escUrl (u : String) : String :=
  replaceAll (replaceAll u '&' "&amp;") '"' "&quot;"

/-- `make_chapter_body`: heading, source byline, separator, then content. -/
def makeChapterBody (title url contentHtml : String) : String :=
  "<h1 class=\"chapter-title\">" ++ escTitle title ++ "</h1>\n" ++
  "<p class=\"source-url\">Source: <a href=\"" ++ escUrl url ++ "\">" ++
  escUrl url ++ "</a></p>\n" ++
  "<hr class=\"chapter-rule\"/>\n" ++ contentHtml

/-- Oracles for the per-URL stages of `build_epub`: `fetch_page` (html and
final URL, `none` models a raised exception), `extract_article` (title and
body fragment, `none` models a raised exception), and `clean_html`
(`none` models a raised exception; the loop then falls back to the raw
fragment).  The internals of `clean_html` are modelled separately at the
image level; here only its success or failure shapes the chapter. -/
structure BEnv where
  fetch : String → Option (String × String)
  extract : String → String → Option (String × String)
  clean : String → String → Option String

/-- An `epub.EpubHtml` chapter as `build_epub` configures it. -/
structure MChapter where
  title : String
  fileName : String
  lang : String
  content : String
  links : List (String × String × String)
deriving DecidableEq

/-- A book item added by `build_epub` (image items are added inside
`clean_html` and are not part of this level of the model). -/
inductive MItem where
  | css (fileName : String)
  | chapterItem (fileName : String)
  | ncx
  | navDoc
deriving DecidableEq

/-- The observable outcome of `build_epub`: chapters in insertion order, the
items added to the book, the table of contents, the spine, the returned
success count, and whether `write_epub` ran. -/
structure BuildOut where
  chapters : List MChapter
  items : List MItem
  toc : List (String × String × String)
  spine : List String
  count : Nat
  written : Bool
deriving DecidableEq

/-- One iteration of the `build_epub` loop: `none` when the URL produced no
chapter (fetch or extraction raised), otherwise the chapter built from the
1-based enumeration index `idx`.  A cleaning failure falls back to the raw
extracted fragment. -/
def buildStep (env : BEnv) (idx : Nat) (url : String) : Option MChapter :=
  match env.fetch url with
  | none => none
  | some hf =>
    match env.extract hf.1 hf.2 with
    | none => none
    | some tr =>
      let cleaned :=
        match env.clean tr.2 hf.2 with
        | some c => c
        | none => tr.2
      some ⟨tr.1, chapterFileName idx, "en",
            makeChapterBody tr.1 hf.2 cleaned,
            [("styles.css", "stylesheet", "text/css")]⟩

/-- The `for idx, url in enumerate(urls, start=1)` loop, started at `idx`. -/
def buildChaptersFrom (env : BEnv) (idx : Nat) : List String → List MChapter
  | [] => []
  | url :: rest =>
    match buildStep env idx url with
    | none => buildChaptersFrom env (idx + 1) rest
    | some c => c :: buildChaptersFrom env (idx + 1) rest

/-- Fetch and extraction both succeed for this URL. -/
def fetchExtractOk (env : BEnv) (u : String) : Bool :=
  match env.fetch u with
  | none => false
  | some hf => (env.extract hf.1 hf.2).isSome

/-- `build_epub`: stylesheet first, then the chapter loop; with no chapters
the function reports failure without toc, spine or serialisation. -/
def buildEpub (env : BEnv) (urls : List String) : BuildOut :=
  let chapters := buildChaptersFrom env 1 urls
  if chapters.isEmpty then
    ⟨chapters,
     MItem.css "styles.css" :: chapters.map (fun c => MItem.chapterItem c.fileName),
     [], [], 0, false⟩
  else
    ⟨chapters,
     MItem.css "styles.css" :: chapters.map (fun c => MItem.chapterItem c.fileName)
       ++ [MItem.ncx, MItem.navDoc],
     chapters.map (fun c => (c.fileName, c.title, c.fileName)),
     "nav" :: chapters.map (fun c => c.fileName),
     chapters.length, true⟩

/-- The 1-based input positions of the URLs whose fetch and extraction
succeed, starting the numbering at `idx`. -/
def succIndicesFrom (env : BEnv) (idx : Nat) : List String → List Nat
  | [] => []
  | url :: rest =>
    if fetchExtractOk env url then idx :: succIndicesFrom env (idx + 1) rest
    else succIndicesFrom env (idx + 1) rest

/-- `MItem` is a stylesheet item. -/
def isCssItem : MItem → Bool
  | .css _ => true
  | _ => false

/-! ## The incremental state logic of `build_and_send` (`auto.py`) -/

/-- Add a URL to the sent set (`set.update`, membership semantics). -/
def insertUrl (sent : List String) (u : String) : List String :=
  if sent.contains u then sent else sent ++ [u]

/-- `sent_urls.update(new_urls)`. -/
def updateSent (sent newUrls : List String) : List String :=
  newUrls.foldl insertUrl sent

/-- The state decision of `build_and_send`, with `build_epub` as the oracle
`build`: returns `some s` when the state file is rewritten with the new set
`s`, `none` when it is left untouched.  The mail dispatch between building
and the state decision is an external side effect with no bearing on the
decision and is not modelled. -/
def buildAndSendState (build : List String → Nat) (sent urls : List String) :
    Option (List String) :=
  if urls.isEmpty then none
  else
    let newUrls := urls.filter (fun u => !(sent.contains u))
    if newUrls.isEmpty then none
    else
      let built := build newUrls
      if built == 0 then none
      else if built == newUrls.length then some (updateSent sent newUrls)
      else none

/-! ## Invariant predicates and concrete instances -/

/-- Every cache entry records the deterministic internal path of its URL. -/
def cacheSound (env : Env) (st : PState) : Prop :=
  ∀ kv ∈ st.cache, pathFor env kv.1 = some kv.2

/-- Per-URL accounting: either the URL was never cached, downloaded or
registered, or it is cached and was downloaded and registered exactly once. -/
def urlOnce (env : Env) (u : String) (st : PState) : Prop :=
  (lookupA st.cache u = none ∧ countStr st.downloads u = 0 ∧
    resCount st.resources u = 0) ∨
  (∃ p, lookupA st.cache u = some p ∧ countStr st.downloads u = 1 ∧
    resCount st.resources u = 1)

/-- A concrete image environment for witnesses and counterexamples: source
URLs resolve to themselves and every fetch succeeds with a one-byte PNG. -/
def cenvI : Env :=
  ⟨fun _ s => s, fun _ => some ([7], "image/png"), fun _ => "abcdef1234",
   fun m => if m == "image/png" then some ".png" else none, fun _ d => d⟩

/-- A concrete build environment: fetching URL "a" fails, fetching "b"
succeeds; extraction and cleaning succeed. -/
def cenvB : BEnv :=
  ⟨fun u => if u == "b" then some ("h", "b") else none,
   fun _ _ => some ("T", "body"),
   fun c _ => some c⟩

/-- An image declaring width 1 and height 100. -/
def imgTiny : Img :=
  ⟨[("src", "http://e/a.png"), ("width", "1"), ("height", "100")], some "div"⟩

/-- A 1x1 image whose source is an inline data URI. -/
def imgDataPixel : Img :=
  ⟨[("src", "data:image/png;base64,AA"), ("width", "1"), ("height", "1")], some "div"⟩

/-- A plain remote image with alt text, sitting directly in a `<div>`. -/
def imgPlain : Img :=
  ⟨[("src", "http://x/i.png"), ("alt", "hi")], some "div"⟩

/-! ## Association-list lemmas -/

lemma lookupA_append_some {l1 : Attrs} (l2 : Attrs) {k v : String}
    (h : lookupA l1 k = some v) : lookupA (l1 ++ l2) k = some v := by
  induction l1 with
  | nil => simp [lookupA] at h
  | cons kv rest ih =>
    obtain ⟨a, b⟩ := kv
    cases hak : (a == k) <;> simp only [List.cons_append, lookupA, hak] at h ⊢
    · exact ih h
    · simpa using h

lemma lookupA_append_none {l1 : Attrs} (l2 : Attrs) {k : String}
    (h : lookupA l1 k = none) : lookupA (l1 ++ l2) k = lookupA l2 k := by
  induction l1 with
  | nil => rfl
  | cons kv rest ih =>
    obtain ⟨a, b⟩ := kv
    cases hak : (a == k) <;> simp only [List.cons_append, lookupA, hak] at h ⊢
    · exact ih h
    · simp at h

lemma lookupA_mem {l : Attrs} {k v : String} (h : lookupA l k = some v) :
    (k, v) ∈ l := by
  induction l with
  | nil => simp [lookupA] at h
  | cons kv rest ih =>
    obtain ⟨a, b⟩ := kv
    cases hak : (a == k) <;> simp only [lookupA, hak] at h
    · exact List.mem_cons_of_mem _ (ih h)
    · have ha : a = k := by simpa using hak
      subst ha
      simp only [if_pos, Option.some.injEq] at h
      subst h
      exact List.mem_cons_self _ _

lemma lookupA_filter_keep (p : String → Bool) (l : Attrs) (k : String)
    (hp : p k = true) :
    lookupA (l.filter (fun kv => p kv.1)) k = lookupA l k := by
  induction l with
  | nil => rfl
  | cons kv rest ih =>
    obtain ⟨a, b⟩ := kv
    cases hak : (a == k)
    · cases hpa : p a <;>
        simp [List.filter_cons, hpa, lookupA, hak, ih]
    · have ha : a = k := by simpa using hak
      subst ha
      simp [List.filter_cons, hp, lookupA]

lemma lookupA_setA_self (l : Attrs) (k v : String) :
    lookupA (setA l k v) k = some v := by
  induction l with
  | nil => simp [setA, lookupA]
  | cons kv rest ih =>
    obtain ⟨a, b⟩ := kv
    cases hak : (a == k) <;> simp [setA, hak, lookupA, ih]

lemma lookupA_sanitise (a : Attrs) (k : String)
    (hk : keepAttrs.contains k = true) :
    lookupA (sanitiseAttrs a) k = lookupA a k :=
  lookupA_filter_keep (fun s => keepAttrs.contains s) a k hk

lemma lookupA_delA_self (l : Attrs) (k : String) :
    lookupA (delA l k) k = none := by
  induction l with
  | nil => rfl
  | cons kv rest ih =>
    obtain ⟨a, b⟩ := kv
    cases hak : (a == k)
    · simp [delA, List.filter_cons, hak, lookupA]
      simpa [delA] using ih
    · simp [delA, List.filter_cons, hak]
      simpa [delA] using ih

lemma lookupA_delA_ne (l : Attrs) {k1 k : String} (h : k1 ≠ k) :
    lookupA (delA l k) k1 = lookupA l k1 :=
  lookupA_filter_keep (fun s => !(s == k)) l k1 (by simp [h])

lemma mem_sanitise {a : Attrs} {kv : String × String} (h : kv ∈ sanitiseAttrs a) :
    keepAttrs.contains kv.1 = true := by
  simpa using List.of_mem_filter h

lemma delA_absent {l : Attrs} {k : String} (h : lookupA l k = none) :
    delA l k = l := by
  induction l with
  | nil => rfl
  | cons kv rest ih =>
    obtain ⟨a, b⟩ := kv
    cases hak : (a == k)
    · simp only [lookupA, hak, Bool.false_eq_true, if_false] at h
      simp [delA, List.filter_cons, hak]
      simpa [delA] using ih h
    · simp [lookupA, hak] at h

lemma countStr_append (l1 l2 : List String) (u : String) :
    countStr (l1 ++ l2) u = countStr l1 u + countStr l2 u := by
  induction l1 with
  | nil => simp [countStr]
  | cons x xs ih => simp [countStr, ih, Nat.add_assoc]

lemma resCount_append (r1 r2 : List Resource) (u : String) :
    resCount (r1 ++ r2) u = resCount r1 u + resCount r2 u := by
  simp [resCount, List.filter_append]

lemma resCount_single (r : Resource) (u : String) :
    resCount [r] u = if r.srcUrl == u then 1 else 0 := by
  cases h : r.srcUrl == u <;> simp [resCount, List.filter_cons, h]

/-! ## Branch lemmas for the image step -/

lemma processImg_empty (env : Env) (b : String) (st : PState) (img : Img)
    (h : computedSrc img = "") : processImg env b st img = (st, .dropped) := by
  simp [processImg, h]

lemma processImg_tiny (env : Env) (b : String) (st : PState) (img : Img)
    (h : tinyDrop (getAttrD img.attrs "width" "") (getAttrD img.attrs "height" "") = true) :
    processImg env b st img = (st, .dropped) := by
  by_cases h1 : computedSrc img = "" <;> simp [processImg, h1, h]

lemma processImg_data (env : Env) (b : String) (st : PState) (img : Img)
    (h1 : computedSrc img ≠ "")
    (h2 : tinyDrop (getAttrD img.attrs "width" "") (getAttrD img.attrs "height" "") = false)
    (h3 : pyStartsWith (computedSrc img) "data:" = true) :
    processImg env b st img = (st, .kept img.attrs false none) := by
  simp [processImg, h1, h2, h3]

lemma processImg_hit (env : Env) (b : String) (st : PState) (img : Img)
    (u p : String) (h : resolvesTo env b img u)
    (hlk : lookupA st.cache u = some p) :
    processImg env b st img =
      (st, .kept (sanitiseAttrs (setA img.attrs "src" p)) false none) := by
  obtain ⟨h1, h2, h3, h4⟩ := h
  subst h4
  simp [processImg, h1, h2, h3, hlk]

lemma processImg_missFail (env : Env) (b : String) (st : PState) (img : Img)
    (u : String) (h : resolvesTo env b img u)
    (hlk : lookupA st.cache u = none) (hf : env.fetchBin u = none) :
    processImg env b st img =
      (⟨st.cache, st.resources, st.downloads ++ [u]⟩, .dropped) := by
  obtain ⟨h1, h2, h3, h4⟩ := h
  subst h4
  simp [processImg, h1, h2, h3, hlk, hf]

lemma processImg_missOk (env : Env) (b : String) (st : PState) (img : Img)
    (u : String) (d : List Nat) (m : String) (h : resolvesTo env b img u)
    (hlk : lookupA st.cache u = none) (hf : env.fetchBin u = some (d, m)) :
    processImg env b st img =
      registerImg env ⟨st.cache, st.resources, st.downloads ++ [u]⟩ img u d m := by
  obtain ⟨h1, h2, h3, h4⟩ := h
  subst h4
  simp [processImg, h1, h2, h3, hlk, hf]

lemma registerImg_fst (env : Env) (st : PState) (img : Img) (u : String)
    (d : List Nat) (m : String) :
    (registerImg env st img u d m).1 =
      ⟨st.cache ++ [(u, internalPath env u m)],
       st.resources ++ [⟨"img_" ++ env.urlHash u, internalPath env u m, m,
                         env.resize m d, u⟩],
       st.downloads⟩ := by
  cases hw : wrapCond img.parentName <;> simp [registerImg, hw]

lemma registerImg_snd (env : Env) (st : PState) (img : Img) (u : String)
    (d : List Nat) (m : String) :
    ∃ w c, (registerImg env st img u d m).2 =
      ImgResult.kept (sanitiseAttrs (setA img.attrs "src" (internalPath env u m))) w c := by
  cases hw : wrapCond img.parentName
  · exact ⟨false, none, by simp [registerImg, hw]⟩
  · exact ⟨true,
      (if pyStrip (getAttrD (sanitiseAttrs (setA img.attrs "src" (internalPath env u m))) "alt" "") == ""
       then none
       else some (pyStrip (getAttrD (sanitiseAttrs (setA img.attrs "src" (internalPath env u m))) "alt" ""))),
      by simp [registerImg, hw]⟩

/-- Characterisation of the tracking-pixel test: it fires exactly when the
width parses as an integer at most 2, or the width parses above 2 and the
height parses at most 2. -/
lemma tinyDrop_iff (w h : String) :
    tinyDrop w h = true ↔
      ∃ wi, pyInt w = some wi ∧
        (wi ≤ 2 ∨ (2 < wi ∧ ∃ hi, pyInt h = some hi ∧ hi ≤ 2)) := by
  unfold tinyDrop
  cases hw : pyInt w with
  | none => simp
  | some wi =>
    by_cases hwi : wi ≤ 2
    · simp [hwi]
    · cases hh : pyInt h with
      | none => simp [hwi, hh]
      | some hi =>
        by_cases hhi : hi ≤ 2 <;> simp [hwi, hh, hhi] <;> omega

/-- The spec-worded both-dimensions-at-most-2 condition implies the code's
tracking-pixel test. -/
lemma spec_imp_tinyDrop (w h : String) (hs : specTrackingPixel w h = true) :
    tinyDrop w h = true := by
  unfold specTrackingPixel at hs
  rw [tinyDrop_iff]
  cases hw : pyInt w with
  | none => rw [hw] at hs; simp at hs
  | some wi =>
    rw [hw] at hs
    cases hh : pyInt h with
    | none => rw [hh] at hs; simp at hs
    | some hi =>
      rw [hh] at hs
      simp only [Bool.and_eq_true, decide_eq_true_eq] at hs
      exact ⟨wi, rfl, Or.inl hs.1⟩

lemma processImg_shape (env : Env) (b : String) (st : PState) (img : Img) :
    processImg env b st img = (st, ImgResult.dropped) ∨
    (pyStartsWith (computedSrc img) "data:" = true ∧
      processImg env b st img = (st, ImgResult.kept img.attrs false none)) ∨
    (∃ u p, resolvesTo env b img u ∧ lookupA st.cache u = some p ∧
      processImg env b st img =
        (st, ImgResult.kept (sanitiseAttrs (setA img.attrs "src" p)) false none)) ∨
    (∃ u, resolvesTo env b img u ∧ lookupA st.cache u = none ∧
      env.fetchBin u = none ∧
      processImg env b st img =
        (⟨st.cache, st.resources, st.downloads ++ [u]⟩, ImgResult.dropped)) ∨
    (∃ u d m w c, resolvesTo env b img u ∧ lookupA st.cache u = none ∧
      env.fetchBin u = some (d, m) ∧
      processImg env b st img =
        (⟨st.cache ++ [(u, internalPath env u m)],
          st.resources ++ [⟨"img_" ++ env.urlHash u, internalPath env u m, m,
                            env.resize m d, u⟩],
          st.downloads ++ [u]⟩,
         ImgResult.kept (sanitiseAttrs (setA img.attrs "src" (internalPath env u m))) w c)) := by
  by_cases h1 : computedSrc img = ""
  · exact Or.inl (processImg_empty env b st img h1)
  · cases h2 : tinyDrop (getAttrD img.attrs "width" "") (getAttrD img.attrs "height" "")
    · cases h3 : pyStartsWith (computedSrc img) "data:"
      · have hres : resolvesTo env b img (env.urljoin b (computedSrc img)) := ⟨h1, h2, h3, rfl⟩
        cases hlk : lookupA st.cache (env.urljoin b (computedSrc img)) with
        | some p =>
          exact Or.inr (Or.inr (Or.inl
            ⟨_, p, hres, hlk, processImg_hit env b st img _ p hres hlk⟩))
        | none =>
          cases hf : env.fetchBin (env.urljoin b (computedSrc img)) with
          | none =>
            exact Or.inr (Or.inr (Or.inr (Or.inl
              ⟨_, hres, hlk, hf, processImg_missFail env b st img _ hres hlk hf⟩)))
          | some dm =>
            obtain ⟨d, m⟩ := dm
            obtain ⟨w, c, hsnd⟩ :=
              registerImg_snd env
                ⟨st.cache, st.resources, st.downloads ++ [env.urljoin b (computedSrc img)]⟩
                img (env.urljoin b (computedSrc img)) d m
            refine Or.inr (Or.inr (Or.inr (Or.inr ⟨_, d, m, w, c, hres, hlk, hf, ?_⟩)))
            rw [processImg_missOk env b st img _ d m hres hlk hf]
            exact Prod.ext (registerImg_fst env _ img _ d m) hsnd
      · exact Or.inr (Or.inl ⟨rfl, processImg_data env b st img h1 h2 h3⟩)
    · exact Or.inl (processImg_tiny env b st img h2)

/-! ## Run invariants of `process_images` -/

lemma cacheSound_empty (env : Env) : cacheSound env pState0 := by
  intro kv hkv
  simp [pState0] at hkv

lemma urlOnce_empty (env : Env) (u : String) : urlOnce env u pState0 :=
  Or.inl (by simp [pState0, lookupA, countStr, resCount])

lemma cacheSound_step (env : Env) (b : String) (st : PState) (img : Img)
    (h : cacheSound env st) : cacheSound env (processImg env b st img).1 := by
  rcases processImg_shape env b st img with
    hE | ⟨_, hE⟩ | ⟨u, p, _, _, hE⟩ | ⟨u, _, _, _, hE⟩ | ⟨u, d, m, w, c, _, _, hf, hE⟩ <;>
    rw [hE]
  · exact h
  · exact h
  · exact h
  · exact h
  · intro kv hkv
    rcases List.mem_append.mp hkv with hold | hnew
    · exact h kv hold
    · have : kv = (u, internalPath env u m) := by simpa using hnew
      subst this
      simp [pathFor, hf]

lemma lookup_mono_step (env : Env) (b : String) (st : PState) (img : Img)
    {k v : String} (h : lookupA st.cache k = some v) :
    lookupA (processImg env b st img).1.cache k = some v := by
  rcases processImg_shape env b st img with
    hE | ⟨_, hE⟩ | ⟨u, p, _, _, hE⟩ | ⟨u, _, _, _, hE⟩ | ⟨u, d, m, w, c, _, _, _, hE⟩ <;>
    rw [hE]
  · exact h
  · exact h
  · exact h
  · exact h
  · exact lookupA_append_some _ h

lemma urlOnce_step (env : Env) (b u : String) (st : PState) (img : Img)
    (hf : (env.fetchBin u).isSome) (h : urlOnce env u st) :
    urlOnce env u (processImg env b st img).1 := by
  rcases processImg_shape env b st img with
    hE | ⟨_, hE⟩ | ⟨v, p, _, _, hE⟩ | ⟨v, hres, hlk, hfv, hE⟩ | ⟨v, d, m, w, c, hres, hlk, hfv, hE⟩ <;>
    rw [hE]
  · exact h
  · exact h
  · exact h
  · by_cases hvu : v = u
    · subst hvu
      rw [hfv] at hf
      simp at hf
    · have hne : (v == u) = false := by simp [hvu]
      rcases h with ⟨hl, hd, hr⟩ | ⟨p, hl, hd, hr⟩
      · exact Or.inl ⟨hl, by simp [countStr_append, countStr, hne, hd], hr⟩
      · exact Or.inr ⟨p, hl, by simp [countStr_append, countStr, hne, hd], hr⟩
  · by_cases hvu : v = u
    · subst hvu
      rcases h with ⟨hl, hd, hr⟩ | ⟨p, hl, hd, hr⟩
      · refine Or.inr ⟨internalPath env v m, ?_, ?_, ?_⟩
        · rw [lookupA_append_none _ hl]
          simp [lookupA]
        · simp [countStr_append, countStr, hd]
        · simp [resCount_append, resCount_single, hr]
      · simp [hl] at hlk
    · have hne : (v == u) = false := by simp [hvu]
      rcases h with ⟨hl, hd, hr⟩ | ⟨p, hl, hd, hr⟩
      · refine Or.inl ⟨?_, ?_, ?_⟩
        · rw [lookupA_append_none _ hl]
          simp [lookupA, hne]
        · simp [countStr_append, countStr, hne, hd]
        · simp [resCount_append, resCount_single, hne, hr]
      · refine Or.inr ⟨p, lookupA_append_some _ hl, ?_, ?_⟩
        · simp [countStr_append, countStr, hne, hd]
        · simp [resCount_append, resCount_single, hne, hr]

lemma cacheSound_run (env : Env) (b : String) (imgs : List Img) :
    ∀ st : PState, cacheSound env st → cacheSound env (runStateFrom env b st imgs) := by
  induction imgs with
  | nil => exact fun st h => h
  | cons img rest ih => exact fun st h => ih _ (cacheSound_step env b st img h)

lemma urlOnce_run (env : Env) (b u : String) (imgs : List Img)
    (hf : (env.fetchBin u).isSome) :
    ∀ st : PState, urlOnce env u st → urlOnce env u (runStateFrom env b st imgs) := by
  induction imgs with
  | nil => exact fun st h => h
  | cons img rest ih => exact fun st h => ih _ (urlOnce_step env b u st img hf h)

lemma lookup_mono_run (env : Env) (b : String) (imgs : List Img) :
    ∀ (st : PState) {k v : String}, lookupA st.cache k = some v →
      lookupA (runStateFrom env b st imgs).cache k = some v := by
  induction imgs with
  | nil => exact fun st _ _ h => h
  | cons img rest ih => exact fun st _ _ h => ih _ (lookup_mono_step env b st img h)

/-- A step on an image resolving to a fetchable URL leaves that URL cached
under its deterministic internal path. -/
lemma step_caches (env : Env) (b u : String) (st : PState) (img : Img)
    (d : List Nat) (m : String)
    (hres : resolvesTo env b img u) (hf : env.fetchBin u = some (d, m))
    (hsound : cacheSound env st) :
    lookupA (processImg env b st img).1.cache u = some (internalPath env u m) := by
  cases hlk : lookupA st.cache u with
  | some p =>
    have hpath := hsound _ (lookupA_mem hlk)
    have hp : internalPath env u m = p := by
      simp only [pathFor, hf] at hpath
      exact Option.some.inj hpath
    rw [processImg_hit env b st img u p hres hlk]
    rw [hp]
    exact hlk
  | none =>
    rw [processImg_missOk env b st img u d m hres hlk hf, registerImg_fst]
    rw [lookupA_append_none _ hlk]
    simp [lookupA]

/-- A step on an image resolving to a fetchable URL keeps the element and
rewrites its `src` to the deterministic internal path. -/
lemma step_result_src (env : Env) (b u : String) (st : PState) (img : Img)
    (d : List Nat) (m : String)
    (hres : resolvesTo env b img u) (hf : env.fetchBin u = some (d, m))
    (hsound : cacheSound env st) :
    ∃ a w c, (processImg env b st img).2 = ImgResult.kept a w c ∧
      lookupA a "src" = some (internalPath env u m) := by
  cases hlk : lookupA st.cache u with
  | some p =>
    have hpath := hsound _ (lookupA_mem hlk)
    have hp : internalPath env u m = p := by
      simp only [pathFor, hf] at hpath
      exact Option.some.inj hpath
    rw [processImg_hit env b st img u p hres hlk]
    refine ⟨_, false, none, rfl, ?_⟩
    rw [lookupA_sanitise _ _ (by rfl), lookupA_setA_self, hp]
  | none =>
    rw [processImg_missOk env b st img u d m hres hlk hf]
    obtain ⟨w, c, hsnd⟩ := registerImg_snd env _ img u d m
    refine ⟨_, w, c, hsnd, ?_⟩
    rw [lookupA_sanitise _ _ (by rfl), lookupA_setA_self]

/-! ## Lemmas about the `build_epub` loop -/

lemma buildStep_isSome (env : BEnv) (idx : Nat) (u : String) :
    (buildStep env idx u).isSome = fetchExtractOk env u := by
  unfold buildStep fetchExtractOk
  cases env.fetch u with
  | none => simp
  | some hf => cases hex : env.extract hf.1 hf.2 <;> simp [hex]

lemma buildStep_some_shape (env : BEnv) (idx : Nat) (u : String) (c : MChapter)
    (h : buildStep env idx u = some c) :
    c.fileName = chapterFileName idx ∧
    c.links = [("styles.css", "stylesheet", "text/css")] ∧ c.lang = "en" := by
  unfold buildStep at h
  cases hfe : env.fetch u with
  | none => simp [hfe] at h
  | some hf =>
    simp only [hfe] at h
    cases hex : env.extract hf.1 hf.2 with
    | none => simp [hex] at h
    | some tr =>
      simp only [hex, Option.some.injEq] at h
      subst h
      exact ⟨rfl, rfl, rfl⟩

lemma length_buildChaptersFrom (env : BEnv) (urls : List String) :
    ∀ idx : Nat, (buildChaptersFrom env idx urls).length =
      (urls.filter (fun u => fetchExtractOk env u)).length := by
  induction urls with
  | nil => intro idx; rfl
  | cons u rest ih =>
    intro idx
    cases hs : buildStep env idx u with
    | none =>
      have hok : fetchExtractOk env u = false := by
        rw [← buildStep_isSome env idx u, hs]
        rfl
      simp [buildChaptersFrom, hs, List.filter_cons, hok, ih]
    | some c =>
      have hok : fetchExtractOk env u = true := by
        rw [← buildStep_isSome env idx u, hs]
        rfl
      simp [buildChaptersFrom, hs, List.filter_cons, hok, ih]

lemma map_fileName_buildChaptersFrom (env : BEnv) (urls : List String) :
    ∀ idx : Nat, (buildChaptersFrom env idx urls).map (fun c => c.fileName) =
      (succIndicesFrom env idx urls).map chapterFileName := by
  induction urls with
  | nil => intro idx; rfl
  | cons u rest ih =>
    intro idx
    cases hs : buildStep env idx u with
    | none =>
      have hok : fetchExtractOk env u = false := by
        rw [← buildStep_isSome env idx u, hs]
        rfl
      simp [buildChaptersFrom, hs, succIndicesFrom, hok, ih]
    | some c =>
      have hok : fetchExtractOk env u = true := by
        rw [← buildStep_isSome env idx u, hs]
        rfl
      have hfn := (buildStep_some_shape env idx u c hs).1
      simp [buildChaptersFrom, hs, succIndicesFrom, hok, ih, hfn]

lemma links_buildChaptersFrom (env : BEnv) (urls : List String) :
    ∀ (idx : Nat) (c : MChapter), c ∈ buildChaptersFrom env idx urls →
      c.links = [("styles.css", "stylesheet", "text/css")] := by
  induction urls with
  | nil => intro idx c hc; simp [buildChaptersFrom] at hc
  | cons u rest ih =>
    intro idx c hc
    cases hs : buildStep env idx u with
    | none =>
      simp only [buildChaptersFrom, hs] at hc
      exact ih _ _ hc
    | some c0 =>
      simp only [buildChaptersFrom, hs, List.mem_cons] at hc
      rcases hc with rfl | hc
      · exact (buildStep_some_shape env idx u _ hs).2.1
      · exact ih _ _ hc

lemma succIndicesFrom_ge (env : BEnv) (urls : List String) :
    ∀ idx : Nat, ∀ k ∈ succIndicesFrom env idx urls, idx ≤ k := by
  induction urls with
  | nil => intro idx k hk; simp [succIndicesFrom] at hk
  | cons u rest ih =>
    intro idx k hk
    cases hok : fetchExtractOk env u <;>
      simp only [succIndicesFrom, hok, Bool.false_eq_true, if_false, if_true,
        List.mem_cons] at hk
    · exact Nat.le_of_succ_le (ih (idx + 1) k hk)
    · rcases hk with rfl | hk
      · exact Nat.le_refl _
      · exact Nat.le_of_succ_le (ih (idx + 1) k hk)

lemma succIndicesFrom_sorted (env : BEnv) (urls : List String) :
    ∀ idx : Nat, List.Pairwise (· < ·) (succIndicesFrom env idx urls) := by
  induction urls with
  | nil => intro idx; simp [succIndicesFrom]
  | cons u rest ih =>
    intro idx
    cases hok : fetchExtractOk env u <;>
      simp only [succIndicesFrom, hok, Bool.false_eq_true, if_false, if_true]
    · exact ih (idx + 1)
    · refine List.Pairwise.cons ?_ (ih (idx + 1))
      intro k hk
      exact Nat.lt_of_succ_le (succIndicesFrom_ge env rest (idx + 1) k hk)

lemma succIndicesFrom_mem (env : BEnv) (urls : List String) :
    ∀ idx k : Nat, k ∈ succIndicesFrom env idx urls ↔
      (idx ≤ k ∧ ∃ u, urls.get? (k - idx) = some u ∧ fetchExtractOk env u = true) := by
  induction urls with
  | nil => intro idx k; simp [succIndicesFrom]
  | cons u rest ih =>
    intro idx k
    cases hok : fetchExtractOk env u
    · simp only [succIndicesFrom, hok, Bool.false_eq_true, if_false]
      rw [ih (idx + 1) k]
      constructor
      · rintro ⟨hle, v, hget, hv⟩
        refine ⟨Nat.le_of_succ_le hle, v, ?_, hv⟩
        have hkk : k - idx = (k - (idx + 1)) + 1 := by omega
        rw [hkk]
        simpa using hget
      · rintro ⟨hle, v, hget, hv⟩
        by_cases hk : k = idx
        · subst hk
          simp only [Nat.sub_self, List.get?_cons_zero, Option.some.injEq] at hget
          rw [← hget] at hv
          rw [hok] at hv
          exact absurd hv (by simp)
        · have hlt : idx + 1 ≤ k := by omega
          refine ⟨hlt, v, ?_, hv⟩
          have hkk : k - idx = (k - (idx + 1)) + 1 := by omega
          rw [hkk] at hget
          simpa using hget
    · simp only [succIndicesFrom, hok, if_true, List.mem_cons]
      rw [ih (idx + 1) k]
      constructor
      · rintro (rfl | ⟨hle, v, hget, hv⟩)
        · exact ⟨Nat.le_refl _, u, by simp, hok⟩
        · refine ⟨Nat.le_of_succ_le hle, v, ?_, hv⟩
          have hkk : k - idx = (k - (idx + 1)) + 1 := by omega
          rw [hkk]
          simpa using hget
      · rintro ⟨hle, v, hget, hv⟩
        by_cases hk : k = idx
        · exact Or.inl hk
        · have hlt : idx + 1 ≤ k := by omega
          refine Or.inr ⟨hlt, v, ?_, hv⟩
          have hkk : k - idx = (k - (idx + 1)) + 1 := by omega
          rw [hkk] at hget
          simpa using hget

lemma filter_css_chapterItems (l : List MChapter) :
    (l.map (fun c => MItem.chapterItem c.fileName)).filter isCssItem = [] := by
  induction l with
  | nil => rfl
  | cons c rest ih => simp [isCssItem, ih]

/-! ## Claims -/

/-- C1 counterexample: with the first URL failing and the second succeeding,
the produced chapter — the first and only success — is named
`chapter_002.xhtml` from its input position, not `chapter_001.xhtml` from its
1-based position among successes, so the numbering among successes has a
gap. -/
theorem claim_C1_counterexample :
    (buildEpub cenvB ["a", "b"]).chapters.map (fun c => c.fileName)
      = [chapterFileName 2] ∧
    chapterFileName 2 ≠ chapterFileName 1 := by
  exact ⟨by decide, by decide⟩

/-- C1 (amended): each produced chapter's zero-padded internal file name is
derived from the 1-based position of its URL among ALL input URLs (the
enumeration index), not among successes only; the positions used are exactly
the fetch-and-extract successes and are strictly increasing, but a failed URL
leaves a gap in the numbering. -/
theorem claim_C1 (env : BEnv) (urls : List String) :
    (buildEpub env urls).chapters.map (fun c => c.fileName)
      = (succIndicesFrom env 1 urls).map chapterFileName ∧
    List.Pairwise (· < ·) (succIndicesFrom env 1 urls) ∧
    (∀ k : Nat, k ∈ succIndicesFrom env 1 urls ↔
      (1 ≤ k ∧ ∃ u, urls.get? (k - 1) = some u ∧ fetchExtractOk env u = true)) := by
  refine ⟨?_, succIndicesFrom_sorted env urls 1, fun k => succIndicesFrom_mem env urls 1 k⟩
  have hch : (buildEpub env urls).chapters = buildChaptersFrom env 1 urls := by
    unfold buildEpub
    cases hemp : (buildChaptersFrom env 1 urls).isEmpty <;> simp [hemp]
  rw [hch, map_fileName_buildChaptersFrom]

/-- C1 witness: the concrete two-URL build instantiates the file-name law. -/
theorem claim_C1_witness :
    (buildEpub cenvB ["a", "b"]).chapters.map (fun c => c.fileName)
      = (succIndicesFrom cenvB 1 ["a", "b"]).map chapterFileName :=
  (claim_C1 cenvB ["a", "b"]).1

/-- C2 counterexample: this image declares width 1 and height 100 — the
both-dimensions-at-most-2 condition does not hold — yet the tracking-pixel
rule drops it, because the code tests `int(w) <= 2 OR int(h) <= 2`. -/
theorem claim_C2_counterexample :
    processImg cenvI "http://e/" pState0 imgTiny = (pState0, ImgResult.dropped) ∧
    specTrackingPixel "1" "100" = false := by
  exact ⟨by decide, by decide⟩

/-- C2 (amended): an image with both dimensions declared, parseable and at
most 2 is dropped; but the rule actually drops an image exactly when its
declared width parses as an integer at most 2, or its width parses above 2
and its declared height parses at most 2 — a parseable width at most 2 drops
the image regardless of its height. -/
theorem claim_C2 (env : Env) (b : String) (st : PState) (img : Img) :
    (specTrackingPixel (getAttrD img.attrs "width" "")
        (getAttrD img.attrs "height" "") = true →
      processImg env b st img = (st, ImgResult.dropped)) ∧
    (∀ w h : String, tinyDrop w h = true ↔
      ∃ wi, pyInt w = some wi ∧
        (wi ≤ 2 ∨ (2 < wi ∧ ∃ hi, pyInt h = some hi ∧ hi ≤ 2))) :=
  ⟨fun hspec => processImg_tiny env b st img (spec_imp_tinyDrop _ _ hspec),
   fun w h => tinyDrop_iff w h⟩

/-- C2 witness: a declared 2x2 image is dropped. -/
theorem claim_C2_witness :
    processImg cenvI "http://e/" pState0
        ⟨[("src", "http://e/a.png"), ("width", "2"), ("height", "2")], some "div"⟩
      = (pState0, ImgResult.dropped) :=
  (claim_C2 cenvI "http://e/" pState0
    ⟨[("src", "http://e/a.png"), ("width", "2"), ("height", "2")], some "div"⟩).1
    (by decide)

/-- C4: the chapter count equals exactly the number of URLs for which both
fetch and extraction succeed, is at most the URL count, does not depend on
the cleaning oracle at all (cleaning and image failures never reduce it), and
a cleaning failure falls back to the raw unprocessed extracted fragment for
that chapter. -/
theorem claim_C4 (env : BEnv) (urls : List String) (h : urls ≠ []) :
    (buildEpub env urls).count
      = (urls.filter (fun u => fetchExtractOk env u)).length ∧
    (buildEpub env urls).count ≤ urls.length ∧
    (∀ cl2 : String → String → Option String,
      (buildEpub ⟨env.fetch, env.extract, cl2⟩ urls).count
        = (buildEpub env urls).count) ∧
    (∀ (idx : Nat) (u hh ff tt rr : String),
      env.fetch u = some (hh, ff) → env.extract hh ff = some (tt, rr) →
      env.clean rr ff = none →
      buildStep env idx u =
        some ⟨tt, chapterFileName idx, "en", makeChapterBody tt ff rr,
              [("styles.css", "stylesheet", "text/css")]⟩) := by
  have hcount : ∀ e : BEnv,
      (buildEpub e urls).count = (buildChaptersFrom e 1 urls).length := by
    intro e
    unfold buildEpub
    cases hemp : (buildChaptersFrom e 1 urls).isEmpty
    · simp [hemp]
    · have : buildChaptersFrom e 1 urls = [] := by simpa using hemp
      simp [hemp, this]
  refine ⟨?_, ?_, ?_, ?_⟩
  · rw [hcount env, length_buildChaptersFrom env urls 1]
  · rw [hcount env, length_buildChaptersFrom env urls 1]
    exact List.length_filter_le _ _
  · intro cl2
    rw [hcount ⟨env.fetch, env.extract, cl2⟩, hcount env,
        length_buildChaptersFrom ⟨env.fetch, env.extract, cl2⟩ urls 1,
        length_buildChaptersFrom env urls 1]
    rfl
  · intro idx u hh ff tt rr h1 h2 h3
    simp [buildStep, h1, h2, h3]

/-- C4 witness: one of two URLs succeeds, so the count is 1. -/
theorem claim_C4_witness :
    (buildEpub cenvB ["a", "b"]).count
      = ((["a", "b"]).filter (fun u => fetchExtractOk cenvB u)).length :=
  (claim_C4 cenvB ["a", "b"] (by decide)).1

/-- C5 counterexample: a `<p>` element keeps the attribute `data-foo`, which
is outside the allow-list, because the stripping pass only removes the fixed
deny-list. -/
theorem claim_C5_counterexample :
    stripUnwanted "p" [("data-foo", "x")] = [("data-foo", "x")] ∧
    keepAttrs.contains "data-foo" = false := by
  exact ⟨by decide, by decide⟩

/-- C5 (amended): the stripping pass removes exactly the deny-listed
attributes from every non-image element (an attribute outside both lists
survives), skips image elements, and only images kept by the image stage
(other than untouched data-URI images) are reduced to the allow-list. -/
theorem claim_C5 :
    (∀ (tag : String) (a : Attrs) (kv : String × String), tag ≠ "img" →
      (kv ∈ stripUnwanted tag a ↔ kv ∈ a ∧ unwantedAttrs.contains kv.1 = false)) ∧
    (∀ a : Attrs, stripUnwanted "img" a = a) ∧
    (∀ (env : Env) (b : String) (st st2 : PState) (img : Img) (a : Attrs)
      (w : Bool) (c : Option String),
      pyStartsWith (computedSrc img) "data:" = false →
      processImg env b st img = (st2, ImgResult.kept a w c) →
      ∀ kv ∈ a, keepAttrs.contains kv.1 = true) := by
  refine ⟨?_, fun a => by simp [stripUnwanted], ?_⟩
  · intro tag a kv htag
    unfold stripUnwanted
    rw [if_neg (by simpa using htag)]
    simp [List.mem_filter]
  · intro env b st st2 img a w c hnd hk kv hkv
    rcases processImg_shape env b st img with
      hE | ⟨hdata, hE⟩ | ⟨u, p, _, _, hE⟩ | ⟨u, _, _, _, hE⟩ |
      ⟨u, d, m, w2, c2, _, _, _, hE⟩ <;> rw [hE] at hk
    · simp at hk
    · rw [hdata] at hnd
      exact absurd hnd (by simp)
    · injection hk with h1 h2
      injection h2 with ha hw hc
      subst ha
      exact mem_sanitise hkv
    · simp at hk
    · injection hk with h1 h2
      injection h2 with ha hw hc
      subst ha
      exact mem_sanitise hkv

/-- C5 witness: the stripping pass on a `<p>` removes `class` but keeps
`href`, and membership matches the deny-list characterisation. -/
theorem claim_C5_witness :
    ("href", "x") ∈ stripUnwanted "p" [("class", "c"), ("href", "x")] ↔
      ("href", "x") ∈ ([("class", "c"), ("href", "x")] : Attrs) ∧
        unwantedAttrs.contains "href" = false :=
  claim_C5.1 "p" [("class", "c"), ("href", "x")] ("href", "x") (by decide)

/-- C7: the sent-URL state is advanced — rewritten with the old set plus the
requested URLs — exactly when the build's success count equals the number of
URLs requested in that run; on any partial success (and on an empty request)
the state file is left untouched. -/
theorem claim_C7 (build : List String → Nat) (sent urls : List String) :
    ((buildAndSendState build sent urls).isSome ↔
      (urls.filter (fun u => !(sent.contains u)) ≠ [] ∧
        build (urls.filter (fun u => !(sent.contains u))) =
          (urls.filter (fun u => !(sent.contains u))).length)) ∧
    (∀ s, buildAndSendState build sent urls = some s →
      s = updateSent sent (urls.filter (fun u => !(sent.contains u)))) := by
  simp only [buildAndSendState]
  split_ifs with h1 h2 h3 h4
  · have hu : urls = [] := by simpa using h1
    subst hu
    simp
  · have hnu : urls.filter (fun u => !(sent.contains u)) = [] := by simpa using h2
    simp only [hnu]
    simp
  · have hb0 : build (urls.filter (fun u => !(sent.contains u))) = 0 := by
      simpa using h3
    have hnu : ¬(urls.filter (fun u => !(sent.contains u))).isEmpty = true := h2
    have hne : urls.filter (fun u => !(sent.contains u)) ≠ [] := by
      simpa using hnu
    have hlen : (urls.filter (fun u => !(sent.contains u))).length ≠ 0 := by
      intro hl
      exact hne (List.length_eq_zero.mp hl)
    simp only [Option.isSome_none, Bool.false_eq_true, false_iff, not_and]
    refine ⟨fun _ => ?_, fun s hs => by cases hs⟩
    rw [hb0]
    omega
  · have hbl : build (urls.filter (fun u => !(sent.contains u))) =
        (urls.filter (fun u => !(sent.contains u))).length := by
      simpa using h4
    have hne : urls.filter (fun u => !(sent.contains u)) ≠ [] := by
      simpa using h2
    simp only [Option.isSome_some, true_iff, Option.some.injEq]
    exact ⟨⟨hne, hbl⟩, fun s hs => hs.symm⟩
  · have hbl : build (urls.filter (fun u => !(sent.contains u))) ≠
        (urls.filter (fun u => !(sent.contains u))).length := by
      simpa using h4
    simp only [Option.isSome_none, Bool.false_eq_true, false_iff, not_and]
    exact ⟨fun _ => hbl, fun s hs => by cases hs⟩

/-- C7 witness: a full success over one new URL advances the state. -/
theorem claim_C7_witness :
    ((buildAndSendState (fun l => l.length) ["x"] ["x", "y"]).isSome ↔
      ((["x", "y"]).filter (fun u => !((["x"] : List String).contains u)) ≠ [] ∧
        (fun l : List String => l.length)
            ((["x", "y"]).filter (fun u => !((["x"] : List String).contains u))) =
          ((["x", "y"]).filter (fun u => !((["x"] : List String).contains u))).length)) ∧
    (∀ s, buildAndSendState (fun l => l.length) ["x"] ["x", "y"] = some s →
      s = updateSent ["x"]
        ((["x", "y"]).filter (fun u => !((["x"] : List String).contains u)))) :=
  claim_C7 (fun l => l.length) ["x"] ["x", "y"]

/-- C8: for an image without a `src` attribute whose `srcset` has a last
candidate, the srcset pass promotes that candidate's URL into `src`, and the
`srcset` attribute is removed from every image in all cases. -/
theorem claim_C8 (a : Attrs) (s c : String)
    (hsrc : lookupA a "src" = none)
    (hset : lookupA a "srcset" = some s)
    (hlast : (candidatesOf s).getLast? = some c) :
    lookupA (handleSrcset a) "src" = some c ∧
    (∀ a2 : Attrs, lookupA (handleSrcset a2) "srcset" = none) := by
  constructor
  · have hsne : s ≠ "" := by
      intro he
      subst he
      have hcand : candidatesOf "" = [] := by decide
      rw [hcand] at hlast
      simp at hlast
    have hs1 : (!(s == "")) = true := by simp [hsne]
    unfold handleSrcset
    rw [getAttrD, hset]
    simp only [Option.getD_some, hsrc, pyFalsy, hs1, Bool.true_and, if_true, hlast]
    rw [lookupA_delA_ne _ (by decide), lookupA_setA_self]
  · intro a2
    unfold handleSrcset
    exact lookupA_delA_self _ _

/-- C8 witness: the last candidate of `"a 1x, b 2x"` is promoted into `src`
and `srcset` is gone. -/
theorem claim_C8_witness :
    lookupA (handleSrcset [("srcset", "a 1x, b 2x"), ("alt", "z")]) "src"
      = some "b" ∧
    (∀ a2 : Attrs, lookupA (handleSrcset a2) "srcset" = none) :=
  claim_C8 [("srcset", "a 1x, b 2x"), ("alt", "z")] "a 1x, b 2x" "b"
    (by decide) (by decide) (by decide)

/-- C10 counterexample: this image's source is an inline data URI, yet it
does not pass through unchanged — the tracking-pixel check runs first and
decomposes it. -/
theorem claim_C10_counterexample :
    pyStartsWith (computedSrc imgDataPixel) "data:" = true ∧
    processImg cenvI "http://e/" pState0 imgDataPixel
      = (pState0, ImgResult.dropped) := by
  exact ⟨by decide, by decide⟩

/-- C10 (amended): a data-URI image that is not caught by the tracking-pixel
rule and carries no `srcset` attribute passes through the cleaning pipeline
unchanged: it is not downloaded or registered, not wrapped in a figure, the
srcset pass leaves its attributes intact, and the attribute-stripping pass
skips every image element. -/
theorem claim_C10 (env : Env) (b : String) (st : PState) (img : Img)
    (hd : pyStartsWith (computedSrc img) "data:" = true)
    (ht : tinyDrop (getAttrD img.attrs "width" "")
      (getAttrD img.attrs "height" "") = false)
    (hs : lookupA img.attrs "srcset" = none) :
    processImg env b st img = (st, ImgResult.kept img.attrs false none) ∧
    handleSrcset img.attrs = img.attrs ∧
    stripUnwanted "img" img.attrs = img.attrs := by
  have hne : computedSrc img ≠ "" := by
    intro he
    rw [he] at hd
    exact absurd hd (by decide)
  refine ⟨processImg_data env b st img hne ht hd, ?_, by simp [stripUnwanted]⟩
  unfold handleSrcset
  rw [getAttrD, hs]
  simp only [Option.getD_none, beq_self_eq_true, Bool.not_true, Bool.false_and,
    Bool.false_eq_true, if_false]
  exact delA_absent hs

/-- C10 witness: a full-size data-URI image with no srcset is untouched. -/
theorem claim_C10_witness :
    processImg cenvI "http://e/"
        pState0 ⟨[("src", "data:image/png;base64,AA"), ("alt", "z")], some "div"⟩
      = (pState0, ImgResult.kept [("src", "data:image/png;base64,AA"), ("alt", "z")] false none) :=
  (claim_C10 cenvI "http://e/" pState0
    ⟨[("src", "data:image/png;base64,AA"), ("alt", "z")], some "div"⟩
    (by decide) (by decide) (by decide)).1

/-- C6: for a build with at least one chapter, exactly one stylesheet item is
attached to the book, every chapter links the shared stylesheet, the table of
contents has exactly one entry per chapter in chapter order, and the spine is
the navigation page followed by the chapters in insertion order. -/
theorem claim_C6 (env : BEnv) (urls : List String)
    (h : 1 ≤ (buildEpub env urls).count) :
    ((buildEpub env urls).items.filter isCssItem).length = 1 ∧
    (∀ c ∈ (buildEpub env urls).chapters,
      c.links = [("styles.css", "stylesheet", "text/css")]) ∧
    (buildEpub env urls).toc =
      (buildEpub env urls).chapters.map (fun c => (c.fileName, c.title, c.fileName)) ∧
    (buildEpub env urls).spine =
      "nav" :: (buildEpub env urls).chapters.map (fun c => c.fileName) := by
  cases hemp : (buildChaptersFrom env 1 urls).isEmpty
  · have hb : buildEpub env urls =
        ⟨buildChaptersFrom env 1 urls,
         MItem.css "styles.css" ::
           (buildChaptersFrom env 1 urls).map (fun c => MItem.chapterItem c.fileName)
           ++ [MItem.ncx, MItem.navDoc],
         (buildChaptersFrom env 1 urls).map (fun c => (c.fileName, c.title, c.fileName)),
         "nav" :: (buildChaptersFrom env 1 urls).map (fun c => c.fileName),
         (buildChaptersFrom env 1 urls).length, true⟩ := by
      unfold buildEpub
      simp [hemp]
    rw [hb]
    refine ⟨?_, fun c hc => links_buildChaptersFrom env urls 1 c hc, rfl, rfl⟩
    simp [List.filter_cons, List.filter_append, filter_css_chapterItems, isCssItem]
  · exfalso
    unfold buildEpub at h
    simp [hemp] at h

/-- C6 witness: the single-chapter build has exactly one stylesheet item. -/
theorem claim_C6_witness :
    ((buildEpub cenvB ["a", "b"]).items.filter isCssItem).length = 1 :=
  (claim_C6 cenvB ["a", "b"] (by decide)).1

/-- C9: an image reference whose absolute URL is already in the per-run cache
is rewritten to the cached internal path with its attributes sanitised, but
is never wrapped in a figure and never captioned — even a bare image with alt
text; and in a run from the empty cache, a reference preceded by an earlier
reference resolving to the same absolute URL can never be the one that
receives the figure/caption wrapping. -/
theorem claim_C9 (env : Env) (b : String) :
    (∀ (st : PState) (img : Img) (u p : String),
      resolvesTo env b img u → lookupA st.cache u = some p →
      processImg env b st img =
        (st, ImgResult.kept (sanitiseAttrs (setA img.attrs "src" p)) false none)) ∧
    (∀ (pre mid : List Img) (imgA imgB : Img) (u : String),
      resolvesTo env b imgA u → resolvesTo env b imgB u →
      ∀ a w c,
        (processImg env b
          (runStateFrom env b (processImg env b (runStateFrom env b pState0 pre) imgA).1 mid)
          imgB).2 = ImgResult.kept a w c →
        w = false ∧ c = none) := by
  refine ⟨fun st img u p hres hlk => processImg_hit env b st img u p hres hlk, ?_⟩
  intro pre mid imgA imgB u hA hB a w c hk
  have hsPre : cacheSound env (runStateFrom env b pState0 pre) :=
    cacheSound_run env b pre pState0 (cacheSound_empty env)
  have hsA : cacheSound env (processImg env b (runStateFrom env b pState0 pre) imgA).1 :=
    cacheSound_step env b _ imgA hsPre
  have hsM : cacheSound env
      (runStateFrom env b (processImg env b (runStateFrom env b pState0 pre) imgA).1 mid) :=
    cacheSound_run env b mid _ hsA
  cases hfu : env.fetchBin u with
  | none =>
    have hlkM : lookupA
        (runStateFrom env b (processImg env b (runStateFrom env b pState0 pre) imgA).1 mid).cache
        u = none := by
      cases hl : lookupA
          (runStateFrom env b (processImg env b (runStateFrom env b pState0 pre) imgA).1 mid).cache
          u with
      | none => rfl
      | some p =>
        have hp := hsM _ (lookupA_mem hl)
        simp [pathFor, hfu] at hp
    rw [processImg_missFail env b _ imgB u hB hlkM hfu] at hk
    simp at hk
  | some dm =>
    obtain ⟨d, m⟩ := dm
    have hcA : lookupA (processImg env b (runStateFrom env b pState0 pre) imgA).1.cache u
        = some (internalPath env u m) :=
      step_caches env b u _ imgA d m hA hfu hsPre
    have hcM : lookupA
        (runStateFrom env b (processImg env b (runStateFrom env b pState0 pre) imgA).1 mid).cache
        u = some (internalPath env u m) :=
      lookup_mono_run env b mid _ hcA
    rw [processImg_hit env b _ imgB u (internalPath env u m) hB hcM] at hk
    have hk2 : ImgResult.kept
        (sanitiseAttrs (setA imgB.attrs "src" (internalPath env u m))) false none
        = ImgResult.kept a w c := hk
    injection hk2 with ha hw hc
    exact ⟨hw.symm, hc.symm⟩

/-- C9 witness: a cache hit for a bare image with alt text is rewritten and
sanitised but not wrapped and not captioned. -/
theorem claim_C9_witness :
    processImg cenvI "b" ⟨[("http://x/i.png", "images/abcdef1234.png")], [], []⟩ imgPlain
      = (⟨[("http://x/i.png", "images/abcdef1234.png")], [], []⟩,
         ImgResult.kept (sanitiseAttrs (setA imgPlain.attrs "src" "images/abcdef1234.png"))
           false none) :=
  (claim_C9 cenvI "b").1 ⟨[("http://x/i.png", "images/abcdef1234.png")], [], []⟩
    imgPlain "http://x/i.png" "images/abcdef1234.png" (by decide) (by decide)

/-- C3: in one run from the empty cache, two image references resolving to
the same fetchable absolute URL cause exactly one download and exactly one
registered binary resource for that URL, and both elements' `src` attributes
are rewritten to the same internal path, deterministically derived as
`images/` plus the short URL hash plus the MIME-inferred extension with
`.jpe`/`.jpeg` normalised. -/
theorem claim_C3 (env : Env) (b u : String) (d : List Nat) (m : String)
    (pre mid post : List Img) (imgA imgB : Img)
    (hA : resolvesTo env b imgA u) (hB : resolvesTo env b imgB u)
    (hf : env.fetchBin u = some (d, m)) :
    (∃ a w c, (processImg env b (runStateFrom env b pState0 pre) imgA).2
        = ImgResult.kept a w c ∧
      lookupA a "src" = some (internalPath env u m)) ∧
    (processImg env b
        (runStateFrom env b (processImg env b (runStateFrom env b pState0 pre) imgA).1 mid)
        imgB).2
      = ImgResult.kept (sanitiseAttrs (setA imgB.attrs "src" (internalPath env u m)))
          false none ∧
    internalPath env u m = "images/" ++ env.urlHash u ++ normExt (env.guessExt m) ∧
    countStr (runStateFrom env b
        (processImg env b
          (runStateFrom env b (processImg env b (runStateFrom env b pState0 pre) imgA).1 mid)
          imgB).1 post).downloads u = 1 ∧
    resCount (runStateFrom env b
        (processImg env b
          (runStateFrom env b (processImg env b (runStateFrom env b pState0 pre) imgA).1 mid)
          imgB).1 post).resources u = 1 := by
  have hfs : (env.fetchBin u).isSome = true := by rw [hf]; rfl
  have hsPre : cacheSound env (runStateFrom env b pState0 pre) :=
    cacheSound_run env b pre pState0 (cacheSound_empty env)
  have hoPre : urlOnce env u (runStateFrom env b pState0 pre) :=
    urlOnce_run env b u pre hfs pState0 (urlOnce_empty env u)
  have hresA := step_result_src env b u (runStateFrom env b pState0 pre) imgA d m hA hf hsPre
  have hcA : lookupA (processImg env b (runStateFrom env b pState0 pre) imgA).1.cache u
      = some (internalPath env u m) :=
    step_caches env b u (runStateFrom env b pState0 pre) imgA d m hA hf hsPre
  have hoA : urlOnce env u (processImg env b (runStateFrom env b pState0 pre) imgA).1 :=
    urlOnce_step env b u (runStateFrom env b pState0 pre) imgA hfs hoPre
  have hcM : lookupA
      (runStateFrom env b (processImg env b (runStateFrom env b pState0 pre) imgA).1 mid).cache
      u = some (internalPath env u m) :=
    lookup_mono_run env b mid _ hcA
  have hoM : urlOnce env u
      (runStateFrom env b (processImg env b (runStateFrom env b pState0 pre) imgA).1 mid) :=
    urlOnce_run env b u mid hfs _ hoA
  have hBhit := processImg_hit env b
    (runStateFrom env b (processImg env b (runStateFrom env b pState0 pre) imgA).1 mid)
    imgB u (internalPath env u m) hB hcM
  have hstB : (processImg env b
      (runStateFrom env b (processImg env b (runStateFrom env b pState0 pre) imgA).1 mid)
      imgB).1
      = runStateFrom env b (processImg env b (runStateFrom env b pState0 pre) imgA).1 mid := by
    rw [hBhit]
  have hoEnd : urlOnce env u (runStateFrom env b
      (processImg env b
        (runStateFrom env b (processImg env b (runStateFrom env b pState0 pre) imgA).1 mid)
        imgB).1 post) := by
    rw [hstB]
    exact urlOnce_run env b u post hfs _ hoM
  have hcEnd : lookupA (runStateFrom env b
      (processImg env b
        (runStateFrom env b (processImg env b (runStateFrom env b pState0 pre) imgA).1 mid)
        imgB).1 post).cache u = some (internalPath env u m) := by
    rw [hstB]
    exact lookup_mono_run env b post _ hcM
  refine ⟨hresA, by rw [hBhit], rfl, ?_, ?_⟩
  · rcases hoEnd with ⟨hl, _, _⟩ | ⟨p, _, hd2, _⟩
    · rw [hcEnd] at hl
      exact Option.noConfusion hl
    · exact hd2
  · rcases hoEnd with ⟨hl, _, _⟩ | ⟨p, _, _, hr2⟩
    · rw [hcEnd] at hl
      exact Option.noConfusion hl
    · exact hr2

/-- C3 witness: two references to the same URL in one run; the first one is
kept with its `src` rewritten to the deterministic internal path. -/
theorem claim_C3_witness :
    ∃ a w c, (processImg cenvI "b" (runStateFrom cenvI "b" pState0 []) imgPlain).2
        = ImgResult.kept a w c ∧
      lookupA a "src" = some (internalPath cenvI "http://x/i.png" "image/png") :=
  (claim_C3 cenvI "b" "http://x/i.png" [7] "image/png" [] [] [] imgPlain imgPlain
    (by decide) (by decide) rfl).1

end PageStack
